import Mathlib

/-!
Shallow embedding of the word-frequency analyzer
(`iword_frequency_analyzer.py`) and verification of its specification.

Python strings are modelled as `List Char`, dynamically typed arguments as
`PyVal`, and the two raised exceptions (`TypeError` / `ValueError`) as
`PyError` results in `Except`.  Python's `sorted` (a stable sort) is
modelled by Mathlib's stable `List.insertionSort`; Python's slice
`xs[:n]`, including its behaviour for negative `n`, is modelled by
`pySlice`.
-/

deriving instance DecidableEq for Except

namespace WordFreq

abbrev Word := List Char

/-- A dynamically typed Python value, as far as the analyzer inspects it:
a string, an integer, or anything else. -/
inductive PyVal where
  | str (s : List Char)
  | int (n : Int)
  | other
deriving DecidableEq, Repr

/-- Python's `isinstance(v, str)`. -/
def isStr : PyVal → Bool
  | PyVal.str _ => true
  | _ => false

/-- Python's `isinstance(v, int)`. -/
def isInt : PyVal → Bool
  | PyVal.int _ => true
  | _ => false

/-- The exceptions raised by the analyzer. -/
inductive PyError where
  | typeError (msg : String)
  | valueError (msg : String)
deriving DecidableEq, Repr

def textTypeMsg : String := "Invalid input text: Input text should be a string"

def emptyTextMsg : String := "Invalid input text: Input text should not be empty"

def wordTypeMsg : String := "Invalid input: word should be a string"

def nTypeMsg : String := "Invalid input: n should be an integer"

/-- The character class `[A-Za-z]` of the regular expression, by ASCII code. -/
def isAsciiLetter (c : Char) : Bool :=
  (65 ≤ c.toNat && c.toNat ≤ 90) || (97 ≤ c.toNat && c.toNat ≤ 122)

/-- The left-to-right scan of `re.findall(r'[A-Za-z]+', text)`: `acc`
holds the letters of the run currently being matched, in reverse. -/
def runsGo : List Char → List Char → List (List Char)
  | [], acc => if acc.isEmpty then [] else [acc.reverse]
  | c :: cs, acc =>
    if isAsciiLetter c then runsGo cs (c :: acc)
    else if acc.isEmpty then runsGo cs []
    else acc.reverse :: runsGo cs []

/-- `re.findall(r'[A-Za-z]+', text)`: the maximal runs of ASCII letters of
the text, in text order. -/
def extractRuns (s : List Char) : List (List Char) :=
  runsGo s []

/-- The pure core of the tokenizer: extract the runs and lowercase them
(`[valid_word.lower() for valid_word in valid_words_list]`; on runs of
ASCII letters Python's `str.lower` is exactly `Char.toLower` per
character). -/
def tokenize (s : List Char) : List Word :=
  (extractRuns s).map (fun w => w.map Char.toLower)

/-- `extract_valid_words_from_text_and_convert_to_lower_case`: type check,
emptiness check, then tokenize. -/
def extract_valid_words_from_text_and_convert_to_lower_case
    (text : PyVal) : Except PyError (List Word) :=
  match text with
  | PyVal.str s =>
    if s.isEmpty then Except.error (PyError.valueError emptyTextMsg)
    else Except.ok (tokenize s)
  | _ => Except.error (PyError.typeError textTypeMsg)

/-- The keys of `collections.Counter(ws)` in iteration order: the distinct
words of `ws`, ordered by first occurrence.  (Mathlib's `dedup` keeps the
last occurrence, so we dedup the reversal and reverse back.) -/
def counterKeys (ws : List Word) : List Word :=
  ws.reverse.dedup.reverse

/-- `Counter(ws).items()`: each distinct word of `ws`, in first-occurrence
order, paired with its number of occurrences. -/
def counterItems (ws : List Word) : List (Word × Nat) :=
  (counterKeys ws).map (fun w => (w, ws.count w))

/-- `Counter` lookup `word_frequencies[word]`: the stored count, or 0 when
the key is absent. -/
def lookupCount (items : List (Word × Nat)) (w : Word) : Nat :=
  match items.find? (fun p => p.1 == w) with
  | some p => p.2
  | none => 0

/-- Python string comparison `<` on words: strict lexicographic order on
code points. -/
def lexLt : Word → Word → Bool
  | [], [] => false
  | [], _ :: _ => true
  | _ :: _, [] => false
  | a :: as, b :: bs =>
    if a.toNat < b.toNat then true
    else if b.toNat < a.toNat then false
    else lexLt as bs

/-- The comparator of `sorted(..., key=itemgetter(1), reverse=True)`:
`p` may come before `q` iff `q`'s count does not exceed `p`'s. -/
def countGe (p q : Word × Nat) : Prop := q.2 ≤ p.2

instance : DecidableRel countGe :=
  fun p q => inferInstanceAs (Decidable (q.2 ≤ p.2))

instance : IsTotal (Word × Nat) countGe :=
  ⟨fun p q => (Nat.le_total q.2 p.2).imp id id⟩

instance : IsTrans (Word × Nat) countGe :=
  ⟨fun _ _ _ h1 h2 => Nat.le_trans h2 h1⟩

/-- The comparator of `sorted(..., key=lambda x: (-x[1], x[0]))`: `p` may
come before `q` iff the key tuple `(-count p, word p)` is at most
`(-count q, word q)` lexicographically, i.e. count descending with the
word's ascending lexicographic order breaking ties. -/
def rankLe (p q : Word × Nat) : Prop :=
  q.2 < p.2 ∨ (p.2 = q.2 ∧ (lexLt p.1 q.1 = true ∨ p.1 = q.1))

instance : DecidableRel rankLe :=
  fun _ _ => inferInstanceAs (Decidable (_ ∨ _))

/-- Python slice `xs[:n]` for an integer `n`: the first `n` elements when
`0 ≤ n`, and all but the last `-n` elements when `n < 0` (clamped at the
empty list). -/
def pySlice {α : Type} (n : Int) (l : List α) : List α :=
  if 0 ≤ n then l.take n.toNat else l.take ((l.length : Int) + n).toNat

/-- `calculate_highest_frequency`. -/
def calculate_highest_frequency (text : PyVal) : Except PyError Nat :=
  match extract_valid_words_from_text_and_convert_to_lower_case text with
  | Except.error e => Except.error e
  | Except.ok ws =>
    match List.insertionSort countGe (counterItems ws) with
    | [] => Except.ok 0
    | p :: _ => Except.ok p.2

/-- `calculate_frequency_for_word`. -/
def calculate_frequency_for_word (text word : PyVal) : Except PyError Nat :=
  match word with
  | PyVal.str w =>
    match extract_valid_words_from_text_and_convert_to_lower_case text with
    | Except.error e => Except.error e
    | Except.ok ws => Except.ok (lookupCount (counterItems ws) w)
  | _ => Except.error (PyError.typeError wordTypeMsg)

/-- The full ranked sequence of `calculate_most_frequent_n_words` before
truncation: all `(word, count)` pairs sorted by count descending, word
ascending for ties. -/
def sortedItems (ws : List Word) : List (Word × Nat) :=
  List.insertionSort rankLe (counterItems ws)

/-- `calculate_most_frequent_n_words`. -/
def calculate_most_frequent_n_words (text n : PyVal) :
    Except PyError (List (Word × Nat)) :=
  match n with
  | PyVal.int m =>
    match extract_valid_words_from_text_and_convert_to_lower_case text with
    | Except.error e => Except.error e
    | Except.ok ws => Except.ok (pySlice m (sortedItems ws))
  | _ => Except.error (PyError.typeError nTypeMsg)

/-- The first chunk of `splitOnP` is the leading run of non-separator
characters. -/
def splitTail (p : Char → Bool) (l : List Char) : List (List Char) :=
  match l.dropWhile (fun a => !p a) with
  | [] => []
  | _ :: r => r.splitOnP p

/-- A separator of the tokenizer: any character that is not an ASCII
letter. -/
def isSep (c : Char) : Bool := !isAsciiLetter c

/-- The strict ranking order of the specification: count strictly
descending, or equal counts and word strictly ascending. -/
def rankStrict (p q : Word × Nat) : Prop :=
  q.2 < p.2 ∨ (p.2 = q.2 ∧ lexLt p.1 q.1 = true)

/-! ### Character-level lemmas -/

lemma charToNat_ofNat {n : Nat} (h : n < 55296) : (Char.ofNat n).toNat = n := by
  rw [Char.ofNat, dif_pos (Or.inl h : n.isValidChar)]
  rfl

lemma toLower_toNat_of_upper {c : Char} (h1 : 65 ≤ c.toNat) (h2 : c.toNat ≤ 90) :
    (Char.toLower c).toNat = c.toNat + 32 := by
  unfold Char.toLower
  rw [if_pos ⟨h1, h2⟩]
  exact charToNat_ofNat (by omega)

lemma toLower_eq_of_not_upper {c : Char} (h : ¬(65 ≤ c.toNat ∧ c.toNat ≤ 90)) :
    Char.toLower c = c := by
  unfold Char.toLower
  rw [if_neg h]

/-- Lowercasing an ASCII letter yields a lowercase ASCII letter. -/
lemma toLower_of_letter {c : Char} (h : isAsciiLetter c = true) :
    97 ≤ (Char.toLower c).toNat ∧ (Char.toLower c).toNat ≤ 122 := by
  unfold isAsciiLetter at h
  simp only [Bool.or_eq_true, Bool.and_eq_true, decide_eq_true_eq] at h
  rcases h with ⟨h1, h2⟩ | ⟨h1, h2⟩
  · rw [toLower_toNat_of_upper h1 h2]; omega
  · rw [toLower_eq_of_not_upper (by omega)]; omega

/-! ### Tokenizer lemmas -/

lemma dropWhile_head_false {α : Type} {p : α → Bool} :
    ∀ {l t : List α} {a : α}, l.dropWhile p = a :: t → p a = false := by
  intro l
  induction l with
  | nil => intro t a h; simp at h
  | cons c cs ih =>
    intro t a h
    by_cases hc : p c
    · rw [List.dropWhile_cons_of_pos hc] at h
      exact ih h
    · rw [List.dropWhile_cons_of_neg hc] at h
      cases h
      simpa using hc

lemma splitOnP_eq_first_chunk (p : Char → Bool) (l : List Char) :
    l.splitOnP p = l.takeWhile (fun a => !p a) :: splitTail p l := by
  induction l with
  | nil => simp [splitTail, List.splitOnP_nil]
  | cons a l ih =>
    by_cases h : p a
    · rw [List.splitOnP_cons, if_pos h]
      have ht : List.takeWhile (fun a => !p a) (a :: l) = [] := by
        rw [List.takeWhile_cons_of_neg]; simp [h]
      have hd : splitTail p (a :: l) = l.splitOnP p := by
        unfold splitTail
        rw [List.dropWhile_cons_of_neg (by simp [h])]
      rw [ht, hd]
    · rw [List.splitOnP_cons, if_neg h, ih]
      have ht : List.takeWhile (fun a => !p a) (a :: l) =
          a :: List.takeWhile (fun a => !p a) l := by
        rw [List.takeWhile_cons_of_pos]; simp [h]
      have hd : splitTail p (a :: l) = splitTail p l := by
        unfold splitTail
        rw [List.dropWhile_cons_of_pos (by simp [h])]
      rw [ht, hd]
      rfl

lemma filter_splitTail (p : Char → Bool) (l : List Char) :
    (splitTail p l).filter (fun w => !w.isEmpty) =
      (((l.dropWhile (fun a => !p a)).splitOnP p).filter (fun w => !w.isEmpty)) := by
  unfold splitTail
  cases hdw : l.dropWhile (fun a => !p a) with
  | nil => simp [List.splitOnP_nil]
  | cons d r =>
    have hd : p d = true := by
      have := dropWhile_head_false hdw
      simpa using this
    rw [List.splitOnP_cons, if_pos hd]
    simp

lemma not_isSep_eq : (fun a => !isSep a) = isAsciiLetter := by
  funext a
  simp [isSep]

/-- The scanner computes exactly the nonempty chunks of splitting the text
at separator characters; with a nonempty accumulator the pending run is
closed by the leading letters of the remaining input. -/
lemma runsGo_eq_splitOnP (s : List Char) :
    (runsGo s [] = (s.splitOnP isSep).filter (fun w => !w.isEmpty)) ∧
    (∀ acc, acc ≠ [] →
      runsGo s acc = (acc.reverse ++ s.takeWhile isAsciiLetter) ::
        ((s.dropWhile isAsciiLetter).splitOnP isSep).filter (fun w => !w.isEmpty)) := by
  induction s with
  | nil =>
    constructor
    · simp [runsGo, List.splitOnP_nil]
    · intro acc hacc
      simp [runsGo, List.isEmpty_iff, hacc, List.splitOnP_nil]
  | cons c cs ih =>
    obtain ⟨ih1, ih2⟩ := ih
    have hchunk : ∀ hc : isAsciiLetter c = true,
        ((c :: cs).splitOnP isSep).filter (fun w => !w.isEmpty) =
          (c :: cs.takeWhile isAsciiLetter) ::
            ((cs.dropWhile isAsciiLetter).splitOnP isSep).filter (fun w => !w.isEmpty) := by
      intro hc
      rw [List.splitOnP_cons, if_neg (by simp [isSep, hc]),
        splitOnP_eq_first_chunk isSep cs, not_isSep_eq]
      show ((c :: cs.takeWhile isAsciiLetter) :: splitTail isSep cs).filter _ = _
      rw [List.filter_cons_of_pos (by simp), filter_splitTail, not_isSep_eq]
    constructor
    · by_cases hc : isAsciiLetter c
      · have hstep : runsGo (c :: cs) [] = runsGo cs [c] := by
          simp [runsGo, hc]
        rw [hstep, ih2 [c] (by simp), hchunk hc]
        rfl
      · have hstep : runsGo (c :: cs) [] = runsGo cs [] := by
          simp [runsGo, hc]
        rw [hstep, ih1, List.splitOnP_cons, if_pos (by simp [isSep, hc])]
        rw [List.filter_cons_of_neg (by simp)]
    · intro acc hacc
      by_cases hc : isAsciiLetter c
      · have hstep : runsGo (c :: cs) acc = runsGo cs (c :: acc) := by
          simp [runsGo, hc]
        rw [hstep, ih2 (c :: acc) (by simp),
          List.takeWhile_cons_of_pos hc, List.dropWhile_cons_of_pos hc]
        simp
      · have hstep : runsGo (c :: cs) acc = acc.reverse :: runsGo cs [] := by
          simp [runsGo, hc, List.isEmpty_iff, hacc]
        rw [hstep, ih1, List.takeWhile_cons_of_neg hc, List.dropWhile_cons_of_neg hc,
          List.splitOnP_cons, if_pos (by simp [isSep, hc])]
        rw [List.filter_cons_of_neg (by simp)]
        simp

/-- `extractRuns` equals splitting the text at separators and discarding
the empty chunks: its output is exactly the maximal letter runs, in text
order. -/
lemma extractRuns_eq_splitOnP (s : List Char) :
    extractRuns s = (s.splitOnP isSep).filter (fun w => !w.isEmpty) :=
  (runsGo_eq_splitOnP s).1

lemma tokenize_eq_splitOnP (s : List Char) :
    tokenize s =
      ((s.splitOnP isSep).filter (fun w => !w.isEmpty)).map
        (fun w => w.map Char.toLower) := by
  unfold tokenize
  rw [extractRuns_eq_splitOnP]

/-- Every run produced by the scanner is nonempty and consists of ASCII
letters only. -/
lemma runsGo_forall (s : List Char) :
    ∀ acc, (∀ c ∈ acc, isAsciiLetter c = true) →
      ∀ r ∈ runsGo s acc, r ≠ [] ∧ ∀ c ∈ r, isAsciiLetter c = true := by
  induction s with
  | nil =>
    intro acc hacc r hr
    unfold runsGo at hr
    by_cases h : acc.isEmpty
    · simp [h] at hr
    · simp only [h, Bool.false_eq_true, if_false, List.mem_singleton] at hr
      subst hr
      refine ⟨by simpa [List.isEmpty_iff] using h, ?_⟩
      intro c hc
      exact hacc c (List.mem_reverse.mp hc)
  | cons c cs ih =>
    intro acc hacc r hr
    unfold runsGo at hr
    by_cases hc : isAsciiLetter c
    · simp only [hc, if_true] at hr
      refine ih (c :: acc) ?_ r hr
      intro d hd
      rcases List.mem_cons.mp hd with h | h
      · subst h; exact hc
      · exact hacc d h
    · simp only [hc, Bool.false_eq_true, if_false] at hr
      by_cases ha : acc.isEmpty
      · simp only [ha, if_true] at hr
        exact ih [] (by simp) r hr
      · simp only [ha, Bool.false_eq_true, if_false, List.mem_cons] at hr
        rcases hr with h | h
        · subst h
          refine ⟨by simpa [List.isEmpty_iff] using ha, ?_⟩
          intro d hd
          exact hacc d (List.mem_reverse.mp hd)
        · exact ih [] (by simp) r h

/-- Every word the tokenizer returns is nonempty and consists of lowercase
ASCII letters only. -/
lemma tokenize_forall (s : List Char) :
    ∀ w ∈ tokenize s, w ≠ [] ∧ ∀ c ∈ w, 97 ≤ c.toNat ∧ c.toNat ≤ 122 := by
  intro w hw
  unfold tokenize at hw
  rcases List.mem_map.mp hw with ⟨r, hr, rfl⟩
  obtain ⟨hne, hall⟩ := runsGo_forall s [] (by simp) r hr
  constructor
  · simpa using hne
  · intro c hc
    rcases List.mem_map.mp hc with ⟨d, hd, rfl⟩
    exact toLower_of_letter (hall d hd)

/-- A text without ASCII letters tokenizes to no words at all. -/
lemma tokenize_eq_nil (s : List Char) (h : ∀ c ∈ s, isAsciiLetter c = false) :
    tokenize s = [] := by
  suffices hrg : runsGo s [] = [] by
    unfold tokenize extractRuns
    rw [hrg]
    rfl
  induction s with
  | nil => rfl
  | cons c cs ih =>
    unfold runsGo
    rw [h c (by simp), if_neg (by simp)]
    simp only [List.isEmpty_nil, if_true]
    exact ih fun d hd => h d (List.mem_cons_of_mem _ hd)

/-! ### Counter lemmas -/

lemma counterKeys_nodup (ws : List Word) : (counterKeys ws).Nodup := by
  unfold counterKeys
  exact List.nodup_reverse.mpr (List.nodup_dedup _)

lemma mem_counterKeys {ws : List Word} {w : Word} :
    w ∈ counterKeys ws ↔ w ∈ ws := by
  unfold counterKeys
  simp [List.mem_reverse, List.mem_dedup]

lemma counterItems_of_mem {ws : List Word} {p : Word × Nat}
    (hp : p ∈ counterItems ws) :
    p.1 ∈ ws ∧ p.2 = ws.count p.1 ∧ 1 ≤ p.2 := by
  unfold counterItems at hp
  rcases List.mem_map.mp hp with ⟨w, hw, rfl⟩
  have hmem : w ∈ ws := mem_counterKeys.mp hw
  exact ⟨hmem, rfl, List.count_pos_iff.mpr hmem⟩

lemma mem_counterItems {ws : List Word} {w : Word} (h : w ∈ ws) :
    (w, ws.count w) ∈ counterItems ws := by
  unfold counterItems
  exact List.mem_map.mpr ⟨w, mem_counterKeys.mpr h, rfl⟩

lemma counterItems_map_fst (ws : List Word) :
    (counterItems ws).map Prod.fst = counterKeys ws := by
  unfold counterItems
  rw [List.map_map]
  exact List.map_id _

lemma counterItems_fst_nodup (ws : List Word) :
    ((counterItems ws).map Prod.fst).Nodup := by
  rw [counterItems_map_fst]
  exact counterKeys_nodup ws

/-- Counting once per distinct key accounts for every element of the
counted list. -/
lemma sum_counts_aux :
    ∀ ks ws : List Word, ks.Nodup → (∀ w ∈ ws, w ∈ ks) → (∀ w ∈ ks, w ∈ ws) →
      (ks.map fun w => ws.count w).sum = ws.length := by
  intro ks
  induction ks with
  | nil =>
    intro ws _ hcover _
    cases ws with
    | nil => simp
    | cons w ws => exact absurd (hcover w (by simp)) (by simp)
  | cons k ks ih =>
    intro ws hnd hcover hmem
    have hknotin : k ∉ ks := (List.nodup_cons.mp hnd).1
    have hlen : ws.length = ws.count k + (ws.filter (fun w => ¬(w == k))).length := by
      have h1 := List.length_eq_countP_add_countP (p := fun w => (w == k)) ws
      rw [List.countP_eq_length_filter (p := fun a => ¬(a == k))] at h1
      rw [List.count_eq_countP]
      exact h1
    have hcount : ∀ w ∈ ks, (ws.filter (fun w => ¬(w == k))).count w = ws.count w := by
      intro w hw
      have hne : w ≠ k := fun h => hknotin (h ▸ hw)
      exact List.count_filter (by simp [hne])
    have htail :
        (ks.map fun w => ws.count w) =
          ks.map fun w => (ws.filter (fun w => ¬(w == k))).count w := by
      refine List.map_congr_left ?_
      intro w hw
      exact (hcount w hw).symm
    rw [List.map_cons, List.sum_cons, htail]
    rw [ih (ws.filter (fun w => ¬(w == k))) (List.nodup_cons.mp hnd).2 ?_ ?_]
    · omega
    · intro w hw
      obtain ⟨hwin, hp⟩ := List.mem_filter.mp hw
      have hne : w ≠ k := by simpa using hp
      rcases List.mem_cons.mp (hcover w hwin) with h | h
      · exact absurd h hne
      · exact h
    · intro w hw
      have hne : w ≠ k := fun h => hknotin (h ▸ hw)
      exact List.mem_filter.mpr ⟨hmem w (List.mem_cons_of_mem _ hw), by simp [hne]⟩

/-- The counts stored in the frequency map add up to the number of
counted words. -/
lemma counterItems_sum (ws : List Word) :
    ((counterItems ws).map Prod.snd).sum = ws.length := by
  unfold counterItems
  rw [List.map_map]
  exact sum_counts_aux (counterKeys ws) ws (counterKeys_nodup ws)
    (fun w hw => mem_counterKeys.mpr hw) (fun w hw => mem_counterKeys.mp hw)

lemma lookupCount_map_keys (f : Word → Nat) (w : Word) :
    ∀ ks : List Word,
      lookupCount (ks.map fun k => (k, f k)) w = if w ∈ ks then f w else 0 := by
  intro ks
  induction ks with
  | nil => simp [lookupCount]
  | cons k ks ih =>
    unfold lookupCount at ih ⊢
    by_cases hk : k = w
    · subst hk
      rw [List.map_cons, List.find?_cons_of_pos _ (by simp)]
      simp
    · rw [List.map_cons, List.find?_cons_of_neg _ (by simp [hk])]
      rw [ih]
      by_cases hw : w ∈ ks
      · rw [if_pos hw, if_pos (List.mem_cons_of_mem _ hw)]
      · rw [if_neg hw, if_neg ?_]
        intro h
        rcases List.mem_cons.mp h with h | h
        · exact hk h.symm
        · exact hw h

/-- `Counter` lookup returns the number of occurrences, with 0 for an
absent key. -/
lemma lookupCount_eq_count (ws : List Word) (w : Word) :
    lookupCount (counterItems ws) w = ws.count w := by
  unfold counterItems
  rw [lookupCount_map_keys]
  by_cases h : w ∈ counterKeys ws
  · rw [if_pos h]
  · rw [if_neg h]
    rw [List.count_eq_zero.mpr (fun hm => h (mem_counterKeys.mpr hm))]

/-! ### Ordering lemmas -/

lemma lexLt_trans :
    ∀ a b c : Word, lexLt a b = true → lexLt b c = true → lexLt a c = true := by
  intro a
  induction a with
  | nil =>
    intro b c hab hbc
    cases b with
    | nil => simp [lexLt] at hab
    | cons y ys =>
      cases c with
      | nil => simp [lexLt] at hbc
      | cons z zs => simp [lexLt]
  | cons x xs ih =>
    intro b c hab hbc
    cases b with
    | nil => simp [lexLt] at hab
    | cons y ys =>
      cases c with
      | nil => simp [lexLt] at hbc
      | cons z zs =>
        simp only [lexLt] at hab hbc ⊢
        by_cases hyz : y.toNat < z.toNat
        · by_cases hzy : z.toNat < y.toNat
          · omega
          · by_cases hxy : x.toNat < y.toNat
            · rw [if_pos (by omega)]
            · by_cases hyx : y.toNat < x.toNat
              · rw [if_neg hxy, if_pos hyx] at hab
                exact absurd hab (by simp)
              · rw [if_pos (by omega)]
        · by_cases hzy : z.toNat < y.toNat
          · rw [if_neg hyz, if_pos hzy] at hbc
            exact absurd hbc (by simp)
          · rw [if_neg hyz, if_neg hzy] at hbc
            by_cases hxy : x.toNat < y.toNat
            · rw [if_pos (by omega)]
            · by_cases hyx : y.toNat < x.toNat
              · rw [if_neg hxy, if_pos hyx] at hab
                exact absurd hab (by simp)
              · rw [if_neg hxy, if_neg hyx] at hab
                rw [if_neg (by omega), if_neg (by omega)]
                exact ih ys zs hab hbc

lemma lexLt_trichotomy (a b : Word) :
    lexLt a b = true ∨ lexLt b a = true ∨ a = b := by
  induction a generalizing b with
  | nil =>
    cases b with
    | nil => right; right; rfl
    | cons y ys => left; simp [lexLt]
  | cons x xs ih =>
    cases b with
    | nil => right; left; simp [lexLt]
    | cons y ys =>
      rcases Nat.lt_trichotomy x.toNat y.toNat with h | h | h
      · left; simp only [lexLt]; rw [if_pos h]
      · have hxy : x = y := Char.eq_of_val_eq (UInt32.toNat.inj h)
        subst hxy
        rcases ih ys with h2 | h2 | h2
        · left; simp only [lexLt]; rw [if_neg (by omega), if_neg (by omega)]; exact h2
        · right; left; simp only [lexLt]; rw [if_neg (by omega), if_neg (by omega)]; exact h2
        · right; right; rw [h2]
      · right; left; simp only [lexLt]; rw [if_pos h]

instance : IsTotal (Word × Nat) rankLe := by
  constructor
  intro p q
  rcases Nat.lt_trichotomy q.2 p.2 with h | h | h
  · exact Or.inl (Or.inl h)
  · rcases lexLt_trichotomy p.1 q.1 with h2 | h2 | h2
    · exact Or.inl (Or.inr ⟨h.symm, Or.inl h2⟩)
    · exact Or.inr (Or.inr ⟨h, Or.inl h2⟩)
    · exact Or.inl (Or.inr ⟨h.symm, Or.inr h2⟩)
  · exact Or.inr (Or.inl h)

instance : IsTrans (Word × Nat) rankLe := by
  constructor
  intro a b c hab hbc
  rcases hab with h1 | ⟨h1, h1'⟩
  · rcases hbc with h2 | ⟨h2, _⟩
    · exact Or.inl (h2.trans h1)
    · exact Or.inl (h2 ▸ h1)
  · rcases hbc with h2 | ⟨h2, h2'⟩
    · exact Or.inl (h1 ▸ h2)
    · refine Or.inr ⟨h1.trans h2, ?_⟩
      rcases h1' with hl1 | he1
      · rcases h2' with hl2 | he2
        · exact Or.inl (lexLt_trans _ _ _ hl1 hl2)
        · exact Or.inl (he2 ▸ hl1)
      · rcases h2' with hl2 | he2
        · exact Or.inl (he1 ▸ hl2)
        · exact Or.inr (he1.trans he2)

lemma rankLe_ne_imp_rankStrict {p q : Word × Nat}
    (h : rankLe p q) (hne : p.1 ≠ q.1) : rankStrict p q := by
  rcases h with h | ⟨h, h'⟩
  · exact Or.inl h
  · rcases h' with hl | he
    · exact Or.inr ⟨h, hl⟩
    · exact absurd he hne

lemma sortedItems_perm (ws : List Word) :
    List.Perm (sortedItems ws) (counterItems ws) :=
  List.perm_insertionSort rankLe (counterItems ws)

lemma sortedItems_pairwise_rankLe (ws : List Word) :
    (sortedItems ws).Pairwise rankLe :=
  List.sorted_insertionSort rankLe (counterItems ws)

lemma sortedItems_fst_nodup (ws : List Word) :
    ((sortedItems ws).map Prod.fst).Nodup :=
  (((sortedItems_perm ws).map Prod.fst).nodup_iff).mpr (counterItems_fst_nodup ws)

/-- The full ranked sequence is strictly sorted: count strictly
descending, word strictly ascending within equal counts. -/
lemma sortedItems_pairwise_rankStrict (ws : List Word) :
    (sortedItems ws).Pairwise rankStrict := by
  have h1 : (sortedItems ws).Pairwise (fun p q => p.1 ≠ q.1) :=
    List.pairwise_map.mp (sortedItems_fst_nodup ws)
  exact ((sortedItems_pairwise_rankLe ws).and h1).imp
    (fun h => rankLe_ne_imp_rankStrict h.1 h.2)

/-! ### Unfolding helpers for the three operations -/

lemma extract_ok {s : List Char} (h : s ≠ []) :
    extract_valid_words_from_text_and_convert_to_lower_case (PyVal.str s) =
      Except.ok (tokenize s) := by
  unfold extract_valid_words_from_text_and_convert_to_lower_case
  show (if s.isEmpty = true then Except.error (PyError.valueError emptyTextMsg)
    else Except.ok (tokenize s)) = Except.ok (tokenize s)
  rw [if_neg (by simpa [List.isEmpty_iff] using h)]

lemma chf_eq {s : List Char} (h : s ≠ []) :
    calculate_highest_frequency (PyVal.str s) =
      match List.insertionSort countGe (counterItems (tokenize s)) with
      | [] => Except.ok 0
      | p :: _ => Except.ok p.2 := by
  unfold calculate_highest_frequency
  rw [extract_ok h]

lemma cfw_eq {s w : List Char} (h : s ≠ []) :
    calculate_frequency_for_word (PyVal.str s) (PyVal.str w) =
      Except.ok (lookupCount (counterItems (tokenize s)) w) := by
  unfold calculate_frequency_for_word
  rw [extract_ok h]

lemma cmf_eq {s : List Char} {n : Int} (h : s ≠ []) :
    calculate_most_frequent_n_words (PyVal.str s) (PyVal.int n) =
      Except.ok (pySlice n (sortedItems (tokenize s))) := by
  unfold calculate_most_frequent_n_words
  rw [extract_ok h]

/-! ### Claim C3 -/

/-- C3: for every non-empty string text, `calculate_highest_frequency`
returns (without error) the maximum count of the frequency map built from
the text, and 0 when that map is empty. -/
theorem highestFrequency_spec (s : List Char) (h : s ≠ []) :
    ∃ r, calculate_highest_frequency (PyVal.str s) = Except.ok r ∧
      (∀ p ∈ counterItems (tokenize s), p.2 ≤ r) ∧
      (counterItems (tokenize s) = [] → r = 0) ∧
      (counterItems (tokenize s) ≠ [] →
        ∃ p ∈ counterItems (tokenize s), r = p.2) := by
  rw [chf_eq h]
  have hperm := List.perm_insertionSort countGe (counterItems (tokenize s))
  have hsorted : (List.insertionSort countGe (counterItems (tokenize s))).Pairwise countGe :=
    List.sorted_insertionSort countGe (counterItems (tokenize s))
  cases hs : List.insertionSort countGe (counterItems (tokenize s)) with
  | nil =>
    have hitems : counterItems (tokenize s) = [] := by
      have := hs ▸ hperm
      exact this.symm.eq_nil
    refine ⟨0, rfl, ?_, fun _ => rfl, fun hne => absurd hitems hne⟩
    intro p hp
    rw [hitems] at hp
    simp at hp
  | cons q t =>
    rw [hs] at hperm hsorted
    refine ⟨q.2, rfl, ?_, ?_, ?_⟩
    · intro p hp
      have hpmem : p ∈ q :: t := hperm.symm.subset hp
      rcases List.mem_cons.mp hpmem with h' | h'
      · subst h'; exact Nat.le_refl _
      · exact (List.pairwise_cons.mp hsorted).1 p h'
    · intro hitems
      rw [hitems] at hperm
      exact absurd hperm.eq_nil (by simp)
    · intro _
      exact ⟨q, hperm.subset (by simp), rfl⟩

/-- Witness for C3 at the text `"a a"`: the highest frequency is 2. -/
theorem highestFrequency_spec_witness :
    (['a', ' ', 'a'] : List Char) ≠ [] ∧
    calculate_highest_frequency (PyVal.str ['a', ' ', 'a']) = Except.ok 2 ∧
    (∃ r, calculate_highest_frequency (PyVal.str ['a', ' ', 'a']) = Except.ok r ∧
      (∀ p ∈ counterItems (tokenize ['a', ' ', 'a']), p.2 ≤ r) ∧
      (counterItems (tokenize ['a', ' ', 'a']) = [] → r = 0) ∧
      (counterItems (tokenize ['a', ' ', 'a']) ≠ [] →
        ∃ p ∈ counterItems (tokenize ['a', ' ', 'a']), r = p.2)) :=
  ⟨by decide, by decide, highestFrequency_spec ['a', ' ', 'a'] (by decide)⟩

/-! ### Slice lemmas -/

lemma pySlice_nil {α : Type} (n : Int) : pySlice n ([] : List α) = [] := by
  unfold pySlice
  split <;> simp

lemma pySlice_of_length_le {α : Type} (n : Int) (l : List α)
    (h : (l.length : Int) ≤ n) : pySlice n l = l := by
  unfold pySlice
  rw [if_pos (le_trans (Int.natCast_nonneg _) h)]
  exact List.take_of_length_le (by omega)

lemma pySlice_neg {α : Type} (n : Int) (l : List α) (h : n < 0) :
    pySlice n l = (l.reverse.drop (-n).toNat).reverse := by
  unfold pySlice
  rw [if_neg (by omega)]
  have hrt := List.reverse_take (l := l) (n := ((l.length : Int) + n).toNat)
  have heq : l.take ((l.length : Int) + n).toNat =
      (l.reverse.drop (l.length - ((l.length : Int) + n).toNat)).reverse := by
    rw [← hrt, List.reverse_reverse]
  rw [heq]
  by_cases hk : (-n).toNat ≤ l.length
  · have : l.length - ((l.length : Int) + n).toNat = (-n).toNat := by omega
    rw [this]
  · rw [List.drop_of_length_le (by rw [List.length_reverse]; omega),
      List.drop_of_length_le (by rw [List.length_reverse]; omega)]

lemma chf_ok {s : List Char} (h : s ≠ []) :
    ∃ r, calculate_highest_frequency (PyVal.str s) = Except.ok r := by
  rw [chf_eq h]
  cases List.insertionSort countGe (counterItems (tokenize s)) with
  | nil => exact ⟨0, rfl⟩
  | cons q t => exact ⟨q.2, rfl⟩

/-! ### Claim C2 -/

/-- C2: on every non-empty string the tokenizer returns exactly the
maximal runs of ASCII letters of the text, in text order, lowercased:
splitting the text at every non-letter character and discarding the empty
chunks.  Every returned word is nonempty and consists of lowercase ASCII
letters only, so no separator character ever appears in an output word. -/
theorem extractWords_spec (s : List Char) (h : s ≠ []) :
    extract_valid_words_from_text_and_convert_to_lower_case (PyVal.str s) =
      Except.ok (((s.splitOnP isSep).filter (fun w => !w.isEmpty)).map
        (fun w => w.map Char.toLower)) ∧
    ∀ w ∈ tokenize s, w ≠ [] ∧ ∀ c ∈ w, 97 ≤ c.toNat ∧ c.toNat ≤ 122 := by
  constructor
  · rw [extract_ok h, tokenize_eq_splitOnP]
  · exact tokenize_forall s

/-- Witness for C2 at the text `"a1B"`: the digit splits the text into two
runs, each lowercased. -/
theorem extractWords_spec_witness :
    (['a', '1', 'B'] : List Char) ≠ [] ∧
    extract_valid_words_from_text_and_convert_to_lower_case
      (PyVal.str ['a', '1', 'B']) = Except.ok [['a'], ['b']] ∧
    (extract_valid_words_from_text_and_convert_to_lower_case
        (PyVal.str ['a', '1', 'B']) =
      Except.ok (((['a', '1', 'B'].splitOnP isSep).filter (fun w => !w.isEmpty)).map
        (fun w => w.map Char.toLower)) ∧
    ∀ w ∈ tokenize ['a', '1', 'B'], w ≠ [] ∧ ∀ c ∈ w, 97 ≤ c.toNat ∧ c.toNat ≤ 122) :=
  ⟨by decide, by decide, extractWords_spec ['a', '1', 'B'] (by decide)⟩

/-! ### Claim C8 -/

/-- C8: the frequency map built from any non-empty text satisfies the
three data-model invariants: every key is a nonempty word of lowercase
ASCII letters, every stored count is at least 1, and the counts sum to the
number of words extracted by the tokenizer. -/
theorem frequencyMap_invariants (s : List Char) (_h : s ≠ []) :
    (∀ p ∈ counterItems (tokenize s),
      p.1 ≠ [] ∧ (∀ c ∈ p.1, 97 ≤ c.toNat ∧ c.toNat ≤ 122) ∧ 1 ≤ p.2) ∧
    ((counterItems (tokenize s)).map Prod.snd).sum = (tokenize s).length := by
  constructor
  · intro p hp
    obtain ⟨hmem, _, hpos⟩ := counterItems_of_mem hp
    obtain ⟨hne, hlow⟩ := tokenize_forall s p.1 hmem
    exact ⟨hne, hlow, hpos⟩
  · exact counterItems_sum (tokenize s)

/-- Witness for C8 at the text `"a a b"`. -/
theorem frequencyMap_invariants_witness :
    (['a', ' ', 'a', ' ', 'b'] : List Char) ≠ [] ∧
    ((∀ p ∈ counterItems (tokenize ['a', ' ', 'a', ' ', 'b']),
      p.1 ≠ [] ∧ (∀ c ∈ p.1, 97 ≤ c.toNat ∧ c.toNat ≤ 122) ∧ 1 ≤ p.2) ∧
    ((counterItems (tokenize ['a', ' ', 'a', ' ', 'b'])).map Prod.snd).sum =
      (tokenize ['a', ' ', 'a', ' ', 'b']).length) :=
  ⟨by decide, frequencyMap_invariants ['a', ' ', 'a', ' ', 'b'] (by decide)⟩

/-! ### Claim C4 -/

/-- C4: on every non-empty text, looking up a word returns (without
error) its stored count in the frequency map, or 0 when the key is
absent; the query word is used exactly as given, so a query containing an
uppercase ASCII letter always yields 0 because all keys are lowercase. -/
theorem frequencyOf_spec (s w : List Char) (h : s ≠ []) :
    ∃ r, calculate_frequency_for_word (PyVal.str s) (PyVal.str w) = Except.ok r ∧
      r = (tokenize s).count w ∧
      ((w, r) ∈ counterItems (tokenize s) ∨
        (r = 0 ∧ ∀ p ∈ counterItems (tokenize s), p.1 ≠ w)) ∧
      ((∃ c ∈ w, 65 ≤ c.toNat ∧ c.toNat ≤ 90) → r = 0) := by
  refine ⟨lookupCount (counterItems (tokenize s)) w, cfw_eq h, lookupCount_eq_count _ _,
    ?_, ?_⟩
  · by_cases hw : w ∈ tokenize s
    · left
      rw [lookupCount_eq_count]
      exact mem_counterItems hw
    · right
      rw [lookupCount_eq_count]
      refine ⟨List.count_eq_zero.mpr hw, ?_⟩
      intro p hp hpw
      exact hw (hpw ▸ (counterItems_of_mem hp).1)
  · rintro ⟨c, hc, h65, h90⟩
    rw [lookupCount_eq_count]
    apply List.count_eq_zero.mpr
    intro hw
    obtain ⟨-, hlow⟩ := tokenize_forall s w hw
    have := hlow c hc
    omega

/-- Witness for C4 at the text `"a A"` and query word `"a"`: both
occurrences count, and the looked-up value is the stored one. -/
theorem frequencyOf_spec_witness :
    (['a', ' ', 'A'] : List Char) ≠ [] ∧
    calculate_frequency_for_word (PyVal.str ['a', ' ', 'A']) (PyVal.str ['a']) =
      Except.ok 2 ∧
    (∃ r, calculate_frequency_for_word (PyVal.str ['a', ' ', 'A']) (PyVal.str ['a']) =
        Except.ok r ∧
      r = (tokenize ['a', ' ', 'A']).count ['a'] ∧
      ((['a'], r) ∈ counterItems (tokenize ['a', ' ', 'A']) ∨
        (r = 0 ∧ ∀ p ∈ counterItems (tokenize ['a', ' ', 'A']), p.1 ≠ ['a'])) ∧
      ((∃ c ∈ ['a'], 65 ≤ c.toNat ∧ c.toNat ≤ 90) → r = 0)) :=
  ⟨by decide, by decide, frequencyOf_spec ['a', ' ', 'A'] ['a'] (by decide)⟩

/-! ### Claim C5 -/

/-- C5: with the other arguments well-typed, each of the three operations
raises the `EmptyInput` error exactly when the text is the zero-length
string; a nonempty text with no ASCII letter is not an error and yields
the fallbacks 0, 0 and the empty list. -/
theorem emptyInput_spec (s w : List Char) (n : Int) :
    (calculate_highest_frequency (PyVal.str s) =
        Except.error (PyError.valueError emptyTextMsg) ↔ s = []) ∧
    (calculate_frequency_for_word (PyVal.str s) (PyVal.str w) =
        Except.error (PyError.valueError emptyTextMsg) ↔ s = []) ∧
    (calculate_most_frequent_n_words (PyVal.str s) (PyVal.int n) =
        Except.error (PyError.valueError emptyTextMsg) ↔ s = []) ∧
    (s ≠ [] → (∀ c ∈ s, isAsciiLetter c = false) →
      calculate_highest_frequency (PyVal.str s) = Except.ok 0 ∧
      calculate_frequency_for_word (PyVal.str s) (PyVal.str w) = Except.ok 0 ∧
      calculate_most_frequent_n_words (PyVal.str s) (PyVal.int n) = Except.ok []) := by
  refine ⟨⟨?_, ?_⟩, ⟨?_, ?_⟩, ⟨?_, ?_⟩, ?_⟩
  · intro heq
    by_contra hs
    obtain ⟨r, hr⟩ := chf_ok hs
    rw [hr] at heq
    exact Except.noConfusion heq
  · rintro rfl
    rfl
  · intro heq
    by_contra hs
    rw [cfw_eq hs] at heq
    exact Except.noConfusion heq
  · rintro rfl
    rfl
  · intro heq
    by_contra hs
    rw [cmf_eq hs] at heq
    exact Except.noConfusion heq
  · rintro rfl
    rfl
  · intro hs hnolet
    have ht := tokenize_eq_nil s hnolet
    refine ⟨?_, ?_, ?_⟩
    · rw [chf_eq hs, ht]
      rfl
    · rw [cfw_eq hs, ht]
      rfl
    · rw [cmf_eq hs, ht]
      show Except.ok (pySlice n (sortedItems [])) = Except.ok []
      rw [show sortedItems [] = [] from rfl, pySlice_nil]

/-- Witness for C5 at the blank text `" "`: no error, and the three
fallback results. -/
theorem emptyInput_spec_witness :
    calculate_highest_frequency (PyVal.str [' ']) = Except.ok 0 ∧
    calculate_frequency_for_word (PyVal.str [' ']) (PyVal.str ['a']) = Except.ok 0 ∧
    calculate_most_frequent_n_words (PyVal.str [' ']) (PyVal.int 3) = Except.ok [] :=
  (emptyInput_spec [' '] ['a'] 3).2.2.2 (by decide) (by decide)

/-! ### Claim C6 -/

/-- C6: a wrongly typed argument raises the `InvalidType` error whose
message names that argument and the expected type: a non-string text in
any operation, a non-string word in the lookup operation, a non-integer n
in the top-n operation. -/
theorem invalidType_spec (t u : PyVal) (w : List Char) (n : Int) :
    (isStr t = false →
      calculate_highest_frequency t = Except.error (PyError.typeError textTypeMsg) ∧
      calculate_frequency_for_word t (PyVal.str w) =
        Except.error (PyError.typeError textTypeMsg) ∧
      calculate_most_frequent_n_words t (PyVal.int n) =
        Except.error (PyError.typeError textTypeMsg)) ∧
    (isStr u = false →
      calculate_frequency_for_word t u = Except.error (PyError.typeError wordTypeMsg)) ∧
    (isInt u = false →
      calculate_most_frequent_n_words t u = Except.error (PyError.typeError nTypeMsg)) := by
  refine ⟨?_, ?_, ?_⟩
  · intro ht
    cases t with
    | str s => exact absurd ht (by simp [isStr])
    | int k => exact ⟨rfl, rfl, rfl⟩
    | other => exact ⟨rfl, rfl, rfl⟩
  · intro hu
    cases u with
    | str s => exact absurd hu (by simp [isStr])
    | int m => rfl
    | other => rfl
  · intro hu
    cases u with
    | str s => rfl
    | int m => exact absurd hu (by simp [isInt])
    | other => rfl

/-- Witness for C6 at the non-string text `6` (and non-string word,
non-integer n). -/
theorem invalidType_spec_witness :
    (calculate_highest_frequency (PyVal.int 6) =
        Except.error (PyError.typeError textTypeMsg) ∧
      calculate_frequency_for_word (PyVal.int 6) (PyVal.str ['a']) =
        Except.error (PyError.typeError textTypeMsg) ∧
      calculate_most_frequent_n_words (PyVal.int 6) (PyVal.int 2) =
        Except.error (PyError.typeError textTypeMsg)) ∧
    calculate_frequency_for_word (PyVal.str ['a']) (PyVal.int 6) =
      Except.error (PyError.typeError wordTypeMsg) ∧
    calculate_most_frequent_n_words (PyVal.str ['a']) (PyVal.str ['x']) =
      Except.error (PyError.typeError nTypeMsg) :=
  ⟨(invalidType_spec (PyVal.int 6) PyVal.other ['a'] 2).1 (by decide),
   (invalidType_spec (PyVal.str ['a']) (PyVal.int 6) ['a'] 2).2.1 (by decide),
   (invalidType_spec (PyVal.str ['a']) (PyVal.str ['x']) ['a'] 2).2.2 (by decide)⟩

/-! ### Claim C10 -/

/-- C10: the type check on the secondary argument comes before any text
validation: for every text value, a non-string word (resp. a non-integer
n) raises the word-argument (resp. n-argument) `InvalidType` error, never
`EmptyInput` and never the text-argument `InvalidType` error. -/
theorem secondaryArg_checked_first (t u : PyVal) :
    (isStr u = false →
      calculate_frequency_for_word t u = Except.error (PyError.typeError wordTypeMsg) ∧
      calculate_frequency_for_word t u ≠
        Except.error (PyError.valueError emptyTextMsg) ∧
      calculate_frequency_for_word t u ≠
        Except.error (PyError.typeError textTypeMsg)) ∧
    (isInt u = false →
      calculate_most_frequent_n_words t u = Except.error (PyError.typeError nTypeMsg) ∧
      calculate_most_frequent_n_words t u ≠
        Except.error (PyError.valueError emptyTextMsg) ∧
      calculate_most_frequent_n_words t u ≠
        Except.error (PyError.typeError textTypeMsg)) := by
  constructor
  · intro hu
    have heq : calculate_frequency_for_word t u =
        Except.error (PyError.typeError wordTypeMsg) := by
      cases u with
      | str s => exact absurd hu (by simp [isStr])
      | int m => rfl
      | other => rfl
    refine ⟨heq, ?_, ?_⟩
    · rw [heq]
      intro hcon
      exact PyError.noConfusion (Except.error.inj hcon)
    · rw [heq]
      intro hcon
      have hmsg := PyError.typeError.inj (Except.error.inj hcon)
      exact absurd hmsg (by decide)
  · intro hu
    have heq : calculate_most_frequent_n_words t u =
        Except.error (PyError.typeError nTypeMsg) := by
      cases u with
      | str s => rfl
      | int m => exact absurd hu (by simp [isInt])
      | other => rfl
    refine ⟨heq, ?_, ?_⟩
    · rw [heq]
      intro hcon
      exact PyError.noConfusion (Except.error.inj hcon)
    · rw [heq]
      intro hcon
      have hmsg := PyError.typeError.inj (Except.error.inj hcon)
      exact absurd hmsg (by decide)

/-- Witness for C10 at the empty-string text with a non-string word and a
non-integer n: the secondary-argument error wins over `EmptyInput`. -/
theorem secondaryArg_checked_first_witness :
    (calculate_frequency_for_word (PyVal.str []) (PyVal.int 6) =
        Except.error (PyError.typeError wordTypeMsg) ∧
      calculate_frequency_for_word (PyVal.str []) (PyVal.int 6) ≠
        Except.error (PyError.valueError emptyTextMsg) ∧
      calculate_frequency_for_word (PyVal.str []) (PyVal.int 6) ≠
        Except.error (PyError.typeError textTypeMsg)) ∧
    (calculate_most_frequent_n_words (PyVal.str []) (PyVal.str ['x']) =
        Except.error (PyError.typeError nTypeMsg) ∧
      calculate_most_frequent_n_words (PyVal.str []) (PyVal.str ['x']) ≠
        Except.error (PyError.valueError emptyTextMsg) ∧
      calculate_most_frequent_n_words (PyVal.str []) (PyVal.str ['x']) ≠
        Except.error (PyError.typeError textTypeMsg)) :=
  ⟨(secondaryArg_checked_first (PyVal.str []) (PyVal.int 6)).1 (by decide),
   (secondaryArg_checked_first (PyVal.str []) (PyVal.str ['x'])).2 (by decide)⟩

/-! ### Claim C1 -/

/-- C1 counterexample: at the text `"a b"` and `n = -1`, the claim's
"first n entries" truncation would be empty, but the Python slice `[:n]`
returns all but the last entry, which is nonempty. -/
theorem mostFrequentN_firstN_counterexample :
    calculate_most_frequent_n_words (PyVal.str ['a', ' ', 'b']) (PyVal.int (-1)) =
      Except.ok [(['a'], 1)] ∧
    (sortedItems (tokenize ['a', ' ', 'b'])).take (Int.toNat (-1)) = [] ∧
    ([(['a'], 1)] : List (Word × Nat)) ≠ [] :=
  ⟨by decide, by decide, by decide⟩

/-- C1 (amended to Python slice semantics for negative `n`): on every
non-empty text, the operation succeeds; the full ranked sequence is a
permutation of the frequency-map entries and is strictly sorted by count
descending then word ascending; the result is also strictly sorted in
that order for every `n` (so every adjacent pair satisfies the ordering);
for `n ≥ 0` the result is the first `n` entries of the ranked sequence;
for `n < 0` it is all but the last `-n` entries of the ranked sequence;
and when `n` is at least the number of distinct words the whole ranked
sequence is returned. -/
theorem mostFrequentN_spec (s : List Char) (n : Int) (h : s ≠ []) :
    ∃ r, calculate_most_frequent_n_words (PyVal.str s) (PyVal.int n) = Except.ok r ∧
      List.Perm (sortedItems (tokenize s)) (counterItems (tokenize s)) ∧
      (sortedItems (tokenize s)).Pairwise rankStrict ∧
      r.Pairwise rankStrict ∧
      (0 ≤ n → r = (sortedItems (tokenize s)).take n.toNat) ∧
      (n < 0 →
        r = ((sortedItems (tokenize s)).reverse.drop (-n).toNat).reverse) ∧
      (((counterItems (tokenize s)).length : Int) ≤ n →
        r = sortedItems (tokenize s)) := by
  refine ⟨pySlice n (sortedItems (tokenize s)), cmf_eq h, sortedItems_perm _,
    sortedItems_pairwise_rankStrict _, ?_, ?_, ?_, ?_⟩
  · have hst := sortedItems_pairwise_rankStrict (tokenize s)
    unfold pySlice
    split
    · exact hst.sublist (List.take_sublist _ _)
    · exact hst.sublist (List.take_sublist _ _)
  · intro hn
    unfold pySlice
    rw [if_pos hn]
  · intro hn
    exact pySlice_neg n _ hn
  · intro hn
    apply pySlice_of_length_le
    rw [(sortedItems_perm (tokenize s)).length_eq]
    exact hn

/-- Witness for C1 at the text `"b a b"` and `n = 2`. -/
theorem mostFrequentN_spec_witness :
    (['b', ' ', 'a', ' ', 'b'] : List Char) ≠ [] ∧
    calculate_most_frequent_n_words (PyVal.str ['b', ' ', 'a', ' ', 'b'])
      (PyVal.int 2) = Except.ok [(['b'], 2), (['a'], 1)] ∧
    (∃ r, calculate_most_frequent_n_words (PyVal.str ['b', ' ', 'a', ' ', 'b'])
        (PyVal.int 2) = Except.ok r ∧
      List.Perm (sortedItems (tokenize ['b', ' ', 'a', ' ', 'b']))
        (counterItems (tokenize ['b', ' ', 'a', ' ', 'b'])) ∧
      (sortedItems (tokenize ['b', ' ', 'a', ' ', 'b'])).Pairwise rankStrict ∧
      r.Pairwise rankStrict ∧
      (0 ≤ (2 : Int) →
        r = (sortedItems (tokenize ['b', ' ', 'a', ' ', 'b'])).take (Int.toNat 2)) ∧
      ((2 : Int) < 0 →
        r = ((sortedItems (tokenize ['b', ' ', 'a', ' ', 'b'])).reverse.drop
          (Int.toNat (-(2 : Int)))).reverse) ∧
      (((counterItems (tokenize ['b', ' ', 'a', ' ', 'b'])).length : Int) ≤ 2 →
        r = sortedItems (tokenize ['b', ' ', 'a', ' ', 'b']))) :=
  ⟨by decide, by decide, mostFrequentN_spec ['b', ' ', 'a', ' ', 'b'] 2 (by decide)⟩

/-! ### Claim C7 -/

/-- C7 counterexample: at the text `"a b c"` and `n = -2` the result is
not the empty list the claim predicts: the Python slice keeps the first
entry. -/
theorem mostFrequentN_nonpos_counterexample :
    calculate_most_frequent_n_words (PyVal.str ['a', ' ', 'b', ' ', 'c'])
      (PyVal.int (-2)) = Except.ok [(['a'], 1)] ∧
    (Except.ok [(['a'], 1)] : Except PyError (List (Word × Nat))) ≠ Except.ok [] :=
  ⟨by decide, by decide⟩

/-- C7 (amended to Python slice semantics): on every non-empty text and
`n ≤ 0`, the operation succeeds; for `n = 0` the result is empty, and for
`n < 0` it consists of all but the last `-n` entries of the ranked
sequence (so it is empty only when `-n` reaches the number of distinct
words). -/
theorem mostFrequentN_nonpos (s : List Char) (n : Int) (hs : s ≠ []) (hn : n ≤ 0) :
    ∃ r, calculate_most_frequent_n_words (PyVal.str s) (PyVal.int n) = Except.ok r ∧
      (n = 0 → r = []) ∧
      (n < 0 →
        r = ((sortedItems (tokenize s)).reverse.drop (-n).toNat).reverse) := by
  refine ⟨pySlice n (sortedItems (tokenize s)), cmf_eq hs, ?_, ?_⟩
  · rintro rfl
    unfold pySlice
    rw [if_pos le_rfl]
    simp
  · intro hneg
    exact pySlice_neg n _ hneg

/-- Witness for C7 at the text `"a b"`: `n = 0` yields the empty list and
`n = -1` drops the last ranked entry. -/
theorem mostFrequentN_nonpos_witness :
    calculate_most_frequent_n_words (PyVal.str ['a', ' ', 'b']) (PyVal.int 0) =
      Except.ok [] ∧
    (∃ r, calculate_most_frequent_n_words (PyVal.str ['a', ' ', 'b'])
        (PyVal.int 0) = Except.ok r ∧
      ((0 : Int) = 0 → r = []) ∧
      ((0 : Int) < 0 →
        r = ((sortedItems (tokenize ['a', ' ', 'b'])).reverse.drop
          (Int.toNat (-(0 : Int)))).reverse)) :=
  ⟨by decide, mostFrequentN_nonpos ['a', ' ', 'b'] 0 (by decide) (by decide)⟩

/-! ### Claim C9 -/

/-- C9: on every non-empty text, a lowercase query word and any `n` at
least the number of distinct words, the looked-up frequency agrees with
the count paired with the word in the full ranked output, and is 0 when
the word does not occur there. -/
theorem frequencyOf_consistent_with_mostFrequentN (s w : List Char) (n : Int)
    (hs : s ≠ []) (_hw : ∀ c ∈ w, 97 ≤ c.toNat ∧ c.toNat ≤ 122)
    (hn : ((counterItems (tokenize s)).length : Int) ≤ n) :
    ∃ r rl,
      calculate_frequency_for_word (PyVal.str s) (PyVal.str w) = Except.ok r ∧
      calculate_most_frequent_n_words (PyVal.str s) (PyVal.int n) = Except.ok rl ∧
      ((∃ p ∈ rl, p.1 = w ∧ p.2 = r) ∨ (r = 0 ∧ ∀ p ∈ rl, p.1 ≠ w)) := by
  have hfull : pySlice n (sortedItems (tokenize s)) = sortedItems (tokenize s) := by
    apply pySlice_of_length_le
    rw [(sortedItems_perm (tokenize s)).length_eq]
    exact hn
  refine ⟨lookupCount (counterItems (tokenize s)) w,
    pySlice n (sortedItems (tokenize s)), cfw_eq hs, cmf_eq hs, ?_⟩
  rw [hfull, lookupCount_eq_count]
  by_cases hmem : w ∈ tokenize s
  · left
    exact ⟨(w, (tokenize s).count w),
      ((sortedItems_perm _).mem_iff).mpr (mem_counterItems hmem), rfl, rfl⟩
  · right
    refine ⟨List.count_eq_zero.mpr hmem, ?_⟩
    intro p hp hpw
    have hpi : p ∈ counterItems (tokenize s) := (sortedItems_perm _).subset hp
    exact hmem (hpw ▸ (counterItems_of_mem hpi).1)

/-- Witness for C9 at the text `"a b a"`, word `"a"`, `n = 5`. -/
theorem frequencyOf_consistent_with_mostFrequentN_witness :
    calculate_frequency_for_word (PyVal.str ['a', ' ', 'b', ' ', 'a'])
      (PyVal.str ['a']) = Except.ok 2 ∧
    (∃ r rl,
      calculate_frequency_for_word (PyVal.str ['a', ' ', 'b', ' ', 'a'])
        (PyVal.str ['a']) = Except.ok r ∧
      calculate_most_frequent_n_words (PyVal.str ['a', ' ', 'b', ' ', 'a'])
        (PyVal.int 5) = Except.ok rl ∧
      ((∃ p ∈ rl, p.1 = ['a'] ∧ p.2 = r) ∨ (r = 0 ∧ ∀ p ∈ rl, p.1 ≠ ['a']))) :=
  ⟨by decide, frequencyOf_consistent_with_mostFrequentN
    ['a', ' ', 'b', ' ', 'a'] ['a'] 5 (by decide) (by decide) (by decide)⟩

end WordFreq
